import Mathlib

/-!
Verification development for a cooklang recipe parser.

The embedding below translates the parser source (a TypeScript class `Parser`
with a token grammar given by regular expressions) into executable Lean
definitions:

* JavaScript string/number primitives used by the source (`trim`, `Number`,
  `substring`, `split`) are modelled over `String`/`List Char`/`ℚ`.
  JS string indices are UTF-16 code units; the model counts characters, which
  agrees on the basic multilingual plane.  `Number(s)` is modelled for decimal
  literals (optional sign, digits, optional fraction); the hexadecimal, octal,
  binary, exponent and Infinity forms of the JS number grammar are out of
  scope of this model, as are IEEE-754 rounding effects (`ℚ` is exact).
* The regular expressions of `src/tokens.ts` are embedded as syntax trees
  (`RE`) and executed by a backtracking matcher (`mrun`) implementing the
  JS semantics: leftmost match, alternatives in order, lazy and greedy
  quantifiers, capture groups indexed as in the combined token pattern.
* The parser engine (`Parser.parse` and its helpers) is translated into
  `parse` and its helper loops; the internal `createNamedGroups` contract
  check (`throw new Error("Unknown regex type")`) is modelled with
  `Except String`.
-/

namespace Cooklang

/-- A quantity value: the source stores `string | number`. Numbers are
modelled as rationals (exact for the decimal arithmetic the parser does). -/
inductive Amount where
  | num (q : ℚ)
  | str (s : String)
deriving DecidableEq, Repr

/-- An ingredient node (`type: "ingredient"` objects in the source). -/
structure Ingredient where
  name : String
  quantity : Amount
  units : String
  preparation : Option String
  step : Option Nat
deriving DecidableEq, Repr

/-- A cookware node (`type: "cookware"` objects in the source). -/
structure Cookware where
  name : String
  quantity : Amount
  step : Option Nat
deriving DecidableEq, Repr

/-- A timer node (`type: "timer"` objects in the source). -/
structure Timer where
  name : String
  quantity : Amount
  units : String
deriving DecidableEq, Repr

/-- One item of a step: text, ingredient, cookware or timer. -/
inductive StepItem where
  | text (value : String)
  | ingredient (i : Ingredient)
  | cookware (c : Cookware)
  | timer (t : Timer)
deriving DecidableEq, Repr

/-- A step is the list of items produced for one source line. -/
abbrev Step := List StepItem

/-- The metadata object: insertion-ordered key/value pairs, later assignments
to an existing key overwrite the value in place (JS object semantics). -/
abbrev Metadata := List (String × String)

/-- A shopping-list item (`{name, synonym}`). -/
structure Item where
  name : String
  synonym : String
deriving DecidableEq, Repr

/-- The shopping-list object: category name to item list, JS object
semantics as for `Metadata`. -/
abbrev ShoppingList := List (String × List Item)

/-- The result structure returned by `Parser.parse`. -/
structure ParseResult where
  ingredients : List Ingredient
  cookwares : List Cookware
  metadata : Metadata
  steps : List Step
  shoppingList : ShoppingList
deriving DecidableEq, Repr

/-- The parser options (constructor defaults of the `Parser` class:
`defaultCookwareAmount = 1`, `defaultIngredientAmount = "some"`,
`includeStepNumber = false`) together with the instance field
`defaultUnits = ""`. -/
structure Config where
  defaultCookwareAmount : Amount := Amount.num 1
  defaultIngredientAmount : Amount := Amount.str "some"
  includeStepNumber : Bool := false
  defaultUnits : String := ""
deriving DecidableEq, Repr

/-- A parser constructed with no options. -/
def defaultConfig : Config := {}

/-! ### JavaScript string and number primitives -/

/-- JS whitespace (the `\s` class and what `String.prototype.trim` strips):
space, tab, line terminators, and the Unicode space separators. -/
def isJsSpace (c : Char) : Bool :=
  let n := c.toNat
  n == 0x20 || n == 0x09 || n == 0x0a || n == 0x0b || n == 0x0c || n == 0x0d ||
  n == 0xa0 || n == 0x1680 || (Nat.ble 0x2000 n && Nat.ble n 0x200a) ||
  n == 0x2028 || n == 0x2029 || n == 0x202f || n == 0x205f || n == 0x3000 ||
  n == 0xfeff

/-- `String.prototype.trim`. -/
def jsTrim (s : String) : String :=
  (((s.data.dropWhile isJsSpace).reverse.dropWhile isJsSpace).reverse).asString

/-- `String.prototype.substring(a, b)`: clamps both indices to the string
length and swaps them when out of order. -/
def jsSubstring (s : String) (a b : Nat) : String :=
  let n := s.data.length
  let a' := min a n
  let b' := min b n
  let lo := min a' b'
  let hi := max a' b'
  ((s.data.drop lo).take (hi - lo)).asString

/-- `String.prototype.substring(a)` (to the end of the string). -/
def jsSubstringFrom (s : String) (a : Nat) : String :=
  jsSubstring s a s.data.length

/-- Numeric value of a digit string (most significant first). -/
def decDigitsVal (l : List Char) : Nat :=
  l.foldl (fun a c => 10 * a + (c.toNat - 48)) 0

/-- Parse an unsigned decimal literal: digits, optionally followed by a
point and further digits, or a point followed by digits. -/
def jsNumAux (cs : List Char) : Option ℚ :=
  let ip := cs.takeWhile Char.isDigit
  let rest := cs.dropWhile Char.isDigit
  match rest with
  | [] => if ip.isEmpty then none else some (decDigitsVal ip)
  | '.' :: frac =>
    if frac.all Char.isDigit && !(ip.isEmpty && frac.isEmpty) then
      some ((decDigitsVal ip : ℚ) + (decDigitsVal frac : ℚ) / (10 ^ frac.length))
    else none
  | _ => none

/-- `Number(s)` on decimal input: `none` models `NaN`.  The empty (or
whitespace-only) string converts to `0`; otherwise an optionally signed
decimal literal. -/
def jsNumber (s : String) : Option ℚ :=
  match (jsTrim s).data with
  | [] => some 0
  | '+' :: cs => jsNumAux cs
  | '-' :: cs => (jsNumAux cs).map Neg.neg
  | cs => jsNumAux cs

/-- `Number(x)` where `x : string | undefined` (`Number(undefined)` is NaN). -/
def jsNumberO : Option String → Option ℚ
  | none => none
  | some s => jsNumber s

/-- JS truthiness of `x : string | undefined` (`undefined` and `""` falsy). -/
def jsStrTruthy : Option String → Bool
  | none => false
  | some s => s != ""

/-- JS falsiness of a number-or-NaN (`!x` for `x : number`): true for NaN
and for zero. -/
def jsNumFalsy : Option ℚ → Bool
  | none => true
  | some q => decide (q = 0)

/-- Split on `\r?\n` as the source's `source.split(/\r?\n/)` does: `\n` or
`\r\n` separate lines, a lone `\r` does not. -/
def splitLinesAux : List Char → List Char → List String
  | [], acc => [acc.reverse.asString]
  | '\r' :: '\n' :: rest, acc => acc.reverse.asString :: splitLinesAux rest []
  | '\n' :: rest, acc => acc.reverse.asString :: splitLinesAux rest []
  | c :: rest, acc => splitLinesAux rest (c :: acc)

/-- `source.split(/\r?\n/)`. -/
def splitLines (s : String) : List String := splitLinesAux s.data []

/-! ### Quantity / units / shopping-list helpers (`parseQuantity`,
`parseUnits`, `parseShoppingListCategory` of the source) -/

/-- `parseQuantity(quantity?: string)`.  Returns `none` for the source's
`undefined` (empty or whitespace-only input), otherwise a number or a
verbatim string.  The final `return quantity.trim()` of the source acts on
the already-trimmed local, so it equals the trimmed input. -/
def parseQuantity (quantity : Option String) : Option Amount :=
  match quantity with
  | none => none
  | some q0 =>
    if jsTrim q0 = "" then none
    else
      let q := jsTrim q0
      let parts := q.splitOn "/"
      let left := parts.headD ""
      let right := parts[1]?
      let numLeft := jsNumber left
      let numRight := jsNumberO right
      -- if (right && isNaN(numRight)) return quantity;
      if jsStrTruthy right && numRight.isNone then some (Amount.str q)
      -- if (!isNaN(numLeft) && !numRight) return numLeft;
      else if numLeft.isSome && jsNumFalsy numRight then
        some (Amount.num (numLeft.getD 0))
      -- else if (!isNaN(numLeft) && !isNaN(numRight) &&
      --          !(left.startsWith("0") || right.startsWith("0")))
      --   return numLeft / numRight;
      else if numLeft.isSome && numRight.isSome &&
          !(left.startsWith "0" || (right.getD "").startsWith "0") then
        some (Amount.num (numLeft.getD 0 / numRight.getD 0))
      else some (Amount.str q)

/-- `parseUnits(units?: string)`: `none` for empty/whitespace, otherwise
the trimmed string. -/
def parseUnits (units : Option String) : Option String :=
  match units with
  | none => none
  | some u => if jsTrim u = "" then none else some (jsTrim u)

/-- `parseShoppingListCategory(items)`: split the block on newlines, skip
blank lines, split each item on `|` into trimmed name and synonym
(`synonym?.trim() || ""`). -/
def parseShoppingListCategory (items : String) : List Item :=
  (items.splitOn "\n").filterMap fun item0 =>
    let item := jsTrim item0
    if item = "" then none
    else
      let parts := item.splitOn "|"
      let name := parts.headD ""
      let synonym :=
        match parts[1]? with
        | some s => if jsTrim s = "" then "" else jsTrim s
        | none => ""
      some { name := jsTrim name, synonym := synonym }

/-- JS-object assignment `md[k] = v`: overwrite in place if the key exists,
else append. -/
def mdInsert (k v : String) (md : Metadata) : Metadata :=
  if md.any (fun p => p.1 == k) then
    md.map (fun p => if p.1 == k then (p.1, v) else p)
  else md ++ [(k, v)]

/-- JS-object assignment `shoppingList[k] = v`. -/
def slInsert (k : String) (v : List Item) (sl : ShoppingList) : ShoppingList :=
  if sl.any (fun p => p.1 == k) then
    sl.map (fun p => if p.1 == k then (p.1, v) else p)
  else sl ++ [(k, v)]

/-! ### Regular-expression engine

A direct backtracking matcher with the JS regex search order: at a given
start position the pattern's possibilities are tried in syntax order (first
alternative first, lazy loops shortest first, greedy loops longest first),
and the first success wins.  Capture groups carry the index they have in
the source pattern. -/

/-- Capture list: group index paired with captured text.  A group absent
from the list did not participate in the match (JS `undefined`). -/
abbrev Caps := List (Nat × String)

/-- Regular-expression syntax used by the source patterns. -/
inductive RE where
  /-- match nothing -/
  | eps
  /-- a literal character -/
  | lit (ch : Char)
  /-- one character of a class -/
  | cls (p : Char → Bool)
  /-- `$` (no `m` flag): end of input -/
  | eos
  | cat (a b : RE)
  /-- `a|b`, preferring `a` -/
  | alt (a b : RE)
  /-- greedy `a?` -/
  | opt (a : RE)
  /-- lazy `p*?` over a character class -/
  | starL (p : Char → Bool)
  /-- lazy `p+?` over a character class -/
  | plusL (p : Char → Bool)
  /-- greedy `p*` over a character class -/
  | starG (p : Char → Bool)
  /-- greedy `p+` over a character class -/
  | plusG (p : Char → Bool)
  /-- a numbered capture group -/
  | group (i : Nat) (a : RE)

/-- Sequence a list of patterns. -/
def reSeq (l : List RE) : RE := l.foldr RE.cat RE.eps

/-- The capture-group indices occurring in a pattern. -/
def REgroups : RE → List Nat
  | .cat a b => REgroups a ++ REgroups b
  | .alt a b => REgroups a ++ REgroups b
  | .opt a => REgroups a
  | .group i a => i :: REgroups a
  | _ => []

/-- Matcher continuation: remaining input and captures so far. -/
abbrev MK := List Char → Caps → Option (List Char × Caps)

/-- Lazy loop over a character class: try the continuation first, then
consume one more matching character. -/
def lazyStar (p : Char → Bool) (caps : Caps) (k : MK) : List Char → Option (List Char × Caps)
  | [] => k [] caps
  | c :: rest =>
    match k (c :: rest) caps with
    | some r => some r
    | none => if p c then lazyStar p caps k rest else none

/-- Greedy loop over a character class: consume as much as possible, then
back off one character at a time. -/
def greedyStar (p : Char → Bool) (caps : Caps) (k : MK) : List Char → Option (List Char × Caps)
  | [] => k [] caps
  | c :: rest =>
    if p c then
      match greedyStar p caps k rest with
      | some r => some r
      | none => k (c :: rest) caps
    else k (c :: rest) caps

/-- Run a pattern at the head of the input with a continuation.  Group
captures record the text the group consumed. -/
def mrun : RE → List Char → Caps → MK → Option (List Char × Caps)
  | .eps, cs, caps, k => k cs caps
  | .lit ch, cs, caps, k =>
    match cs with
    | [] => none
    | c :: rest => if c = ch then k rest caps else none
  | .cls p, cs, caps, k =>
    match cs with
    | [] => none
    | c :: rest => if p c then k rest caps else none
  | .eos, cs, caps, k => if cs.isEmpty then k cs caps else none
  | .cat a b, cs, caps, k => mrun a cs caps (fun cs1 caps1 => mrun b cs1 caps1 k)
  | .alt a b, cs, caps, k =>
    match mrun a cs caps k with
    | some r => some r
    | none => mrun b cs caps k
  | .opt a, cs, caps, k =>
    match mrun a cs caps k with
    | some r => some r
    | none => k cs caps
  | .starL p, cs, caps, k => lazyStar p caps k cs
  | .plusL p, cs, caps, k =>
    match cs with
    | [] => none
    | c :: rest => if p c then lazyStar p caps k rest else none
  | .starG p, cs, caps, k => greedyStar p caps k cs
  | .plusG p, cs, caps, k =>
    match cs with
    | [] => none
    | c :: rest => if p c then greedyStar p caps k rest else none
  | .group i a, cs, caps, k =>
    mrun a cs caps (fun cs1 caps1 =>
      k cs1 ((i, (cs.take (cs.length - cs1.length)).asString) :: caps1))

/-- Match a pattern at the start of `cs`; on success return the length of
the match and its captures. -/
def tryRE (re : RE) (cs : List Char) : Option (Nat × Caps) :=
  match mrun re cs [] (fun rest caps => some (rest, caps)) with
  | some (rest, caps) => some (cs.length - rest.length, caps)
  | none => none

/-- Look up a capture group by its index (JS `match[i]`). -/
def capLookup (i : Nat) (caps : Caps) : Option String :=
  (caps.find? (fun p => p.1 == i)).map (fun p => p.2)

/-! ### Character classes of `src/tokens.ts` -/

/-- `.` without the `s` flag: any character but a line terminator. -/
def dotC (c : Char) : Bool :=
  !(c == '\n' || c == '\r' || c.toNat == 0x2028 || c.toNat == 0x2029)

/-- `[^]`: any character. -/
def anyC (_ : Char) : Bool := true

/-- `[^@#~[]`: the multiword name class. -/
def notNameBreak (c : Char) : Bool :=
  !(c == '@' || c == '#' || c == '~' || c == '[')

/-- `[^}]`. -/
def notRBrace (c : Char) : Bool := c != '}'

/-- Unicode `\p{Zs}` (space separators), full over the ASCII range. -/
def isZsChar (c : Char) : Bool :=
  let n := c.toNat
  n == 0x20 || n == 0xa0 || n == 0x1680 ||
  (Nat.ble 0x2000 n && Nat.ble n 0x200a) || n == 0x202f || n == 0x205f ||
  n == 0x3000

/-- Unicode `\p{P}` (punctuation), exact over the ASCII range; beyond ASCII
the model covers the general-punctuation and CJK-bracket blocks the parser
is plausibly exposed to.  (`$ + < = > ^ \x60 | ~` are symbols, not
punctuation, hence admissible in single-word names.) -/
def isPunctChar (c : Char) : Bool :=
  let n := c.toNat
  c == '!' || c == '"' || c == '#' || c == '%' || c == '&' || n == 0x27 ||
  c == '(' || c == ')' || c == '*' || c == ',' || c == '-' || c == '.' ||
  c == '/' || c == ':' || c == ';' || c == '?' || c == '@' || c == '[' ||
  c == '\\' || c == ']' || c == '_' || n == 0x7b || n == 0x7d ||
  (Nat.ble 0x2010 n && Nat.ble n 0x2027) ||
  (Nat.ble 0x2030 n && Nat.ble n 0x205e) ||
  (Nat.ble 0x3001 n && Nat.ble n 0x3003) ||
  (Nat.ble 0x3008 n && Nat.ble n 0x3011)

/-- `[^\s\t\p{Zs}\p{P}]`: the single-word name class. -/
def swNameC (c : Char) : Bool :=
  !(isJsSpace c || isZsChar c || isPunctChar c)

/-! ### The patterns of `src/tokens.ts`

Group numbers are the capture indices of the combined `tokens` regex
(`metadata|multiwordIngredient|singleWordIngredient|multiwordCookware|
singleWordCookware|timer`).  The `^` anchor of the metadata pattern is
handled in `tryTokenAt`: with no `m` flag it can only match at index 0. -/

/-- `^>>\s*(.+?):\s*(.+)` (anchor handled by the scanner). -/
def metadataRE : RE :=
  reSeq [.lit '>', .lit '>', .starG isJsSpace, .group 1 (.plusL dotC),
    .lit ':', .starG isJsSpace, .group 2 (.plusG dotC)]

/-- `@([^@#~[]+?)\{([^]*?)(?:%([^}]+?))?\}(?:\(([^]*?)\))?` -/
def multiwordIngredientRE : RE :=
  reSeq [.lit '@', .group 3 (.plusL notNameBreak), .lit '{',
    .group 4 (.starL anyC),
    .opt (reSeq [.lit '%', .group 5 (.plusL notRBrace)]), .lit '}',
    .opt (reSeq [.lit '(', .group 6 (.starL anyC), .lit ')'])]

/-- `@([^\s\t\p{Zs}\p{P}]+)` -/
def singleWordIngredientRE : RE :=
  reSeq [.lit '@', .group 7 (.plusG swNameC)]

/-- `#([^@#~[]+?)\{(.*?)\}` -/
def multiwordCookwareRE : RE :=
  reSeq [.lit '#', .group 8 (.plusL notNameBreak), .lit '{',
    .group 9 (.starL dotC), .lit '}']

/-- `#([^\s\t\p{Zs}\p{P}]+)` -/
def singleWordCookwareRE : RE :=
  reSeq [.lit '#', .group 10 (.plusG swNameC)]

/-- `~(.*?)(?:\{(.*?)(?:%(.*?))?\})` -/
def timerRE : RE :=
  reSeq [.lit '~', .group 11 (.starL dotC), .lit '{', .group 12 (.starL dotC),
    .opt (reSeq [.lit '%', .group 13 (.starL dotC)]), .lit '}']

/-- `--.*` (the `comment` pattern). -/
def commentRE : RE := reSeq [.lit '-', .lit '-', .starG dotC]

/-- `\s*\[\-[\s\S]*?\-\]\s*` (the `blockComment` pattern). -/
def blockCommentRE : RE :=
  reSeq [.starG isJsSpace, .lit '[', .lit '-', .starL anyC, .lit '-',
    .lit ']', .starG isJsSpace]

/-- `\n\s*\[(.+)\]\n([^]*?)(?:\n\n|$)` (the `shoppingList` pattern; matched
standalone, so its captures are groups 1 and 2 of its own match array). -/
def shoppingListRE : RE :=
  reSeq [.lit '\n', .starG isJsSpace, .lit '[', .group 1 (.plusG dotC),
    .lit ']', .lit '\n', .group 2 (.starL anyC),
    .alt (.cat (.lit '\n') (.lit '\n')) .eos]

/-! ### Scanning (`matchAll`) and global replacement (`replace`) -/

/-- One element of a `matchAll` iteration: `match.index`,
`match[0].length` and the numbered captures. -/
structure TokenMatch where
  index : Nat
  length : Nat
  caps : Caps
deriving DecidableEq, Repr

/-- Try the six alternatives of the combined `tokens` regex, in source
order, at start position `pos` of the line (`cs` is the line from `pos`
on).  The metadata alternative starts with `^`, which without the `m` flag
only matches at position 0. -/
def tryTokenAt (pos : Nat) (cs : List Char) : Option (Nat × Caps) :=
  let rest :=
    match tryRE multiwordIngredientRE cs with
    | some r => some r
    | none =>
      match tryRE singleWordIngredientRE cs with
      | some r => some r
      | none =>
        match tryRE multiwordCookwareRE cs with
        | some r => some r
        | none =>
          match tryRE singleWordCookwareRE cs with
          | some r => some r
          | none => tryRE timerRE cs
  if pos = 0 then
    match tryRE metadataRE cs with
    | some r => some r
    | none => rest
  else rest

/-- `line.matchAll(tokens)`: successive leftmost matches; after a match the
scan resumes at its end (all alternatives match at least one character, the
`max · 1` mirrors `matchAll`'s empty-match protection). -/
def scanTokensAux (orig : List Char) : Nat → Nat → List TokenMatch
  | 0, _ => []
  | fuel + 1, pos =>
    if pos < orig.length then
      match tryTokenAt pos (orig.drop pos) with
      | some (len, caps) =>
        ⟨pos, len, caps⟩ :: scanTokensAux orig fuel (pos + max len 1)
      | none => scanTokensAux orig fuel (pos + 1)
    else []

/-- All token matches of one line. -/
def lineMatches (line : String) : List TokenMatch :=
  scanTokensAux line.data (line.data.length + 1) 0

/-- `source.matchAll(re)` for a standalone pattern. -/
def scanREAux (re : RE) (orig : List Char) : Nat → Nat → List TokenMatch
  | 0, _ => []
  | fuel + 1, pos =>
    if pos < orig.length then
      match tryRE re (orig.drop pos) with
      | some (len, caps) =>
        ⟨pos, len, caps⟩ :: scanREAux re orig fuel (pos + max len 1)
      | none => scanREAux re orig fuel (pos + 1)
    else []

/-- All matches of a standalone pattern in a string. -/
def scanRE (re : RE) (s : String) : List TokenMatch :=
  scanREAux re s.data (s.data.length + 1) 0

/-- `s.replace(re, repl)` with a global pattern: copy unmatched characters,
substitute each leftmost match. -/
def replaceREAux (re : RE) (repl : List Char) (orig : List Char) : Nat → Nat → List Char
  | 0, _ => []
  | fuel + 1, pos =>
    if pos < orig.length then
      match tryRE re (orig.drop pos) with
      | some (len, _) =>
        if len = 0 then
          repl ++ (orig.drop pos).take 1 ++ replaceREAux re repl orig fuel (pos + 1)
        else repl ++ replaceREAux re repl orig fuel (pos + len)
      | none => (orig.drop pos).take 1 ++ replaceREAux re repl orig fuel (pos + 1)
    else []

/-- Global regex replacement on a string. -/
def replaceRE (re : RE) (repl : String) (s : String) : String :=
  (replaceREAux re repl.data s.data (s.data.length + 1) 0).asString

/-! ### `createNamedGroups` -/

/-- Named groups extracted from one match (only groups that participated). -/
abbrev NamedGroups := List (String × String)

/-- The `groupMappings` table of `createNamedGroups`.  Note the
`shoppingList` entry maps to indices 14/15 — the positions the pattern
would have had in the combined regex — although the shopping-list pattern
is matched standalone and its own match array uses indices 1/2. -/
def groupMappings (t : String) : Option (List (String × Nat)) :=
  if t = "metadata" then some [("key", 1), ("value", 2)]
  else if t = "multiwordIngredient" then
    some [("mIngredientName", 3), ("mIngredientQuantity", 4),
      ("mIngredientUnits", 5), ("mIngredientPreparation", 6)]
  else if t = "singleWordIngredient" then some [("sIngredientName", 7)]
  else if t = "multiwordCookware" then
    some [("mCookwareName", 8), ("mCookwareQuantity", 9)]
  else if t = "singleWordCookware" then some [("sCookwareName", 10)]
  else if t = "timer" then
    some [("timerName", 11), ("timerQuantity", 12), ("timerUnits", 13)]
  else if t = "shoppingList" then some [("name", 14), ("items", 15)]
  else none

/-- `groups[groupName] = match[index]` for every mapped group that was
captured. -/
def extractGroups (caps : Caps) (mapping : List (String × Nat)) : NamedGroups :=
  mapping.filterMap (fun p => (capLookup p.2 caps).map (fun v => (p.1, v)))

/-- `createNamedGroups(match, type)`: `throw new Error` on an unknown type
identifier, otherwise the named-group object. -/
def createNamedGroups (caps : Caps) (t : String) : Except String NamedGroups :=
  match groupMappings t with
  | none => Except.error ("Unknown regex type: " ++ t)
  | some mapping => Except.ok (extractGroups caps mapping)

/-- `groups?.name` lookup on a named-group object. -/
def ngLookup (g : NamedGroups) (nm : String) : Option String :=
  (g.find? (fun p => p.1 == nm)).map (fun p => p.2)

/-- The string value of a named group, `""` when absent. -/
def ngStr (g : NamedGroups) (nm : String) : String := (ngLookup g nm).getD ""

/-- JS truthiness of `groups?.name`. -/
def ngTruthy (g : NamedGroups) (nm : String) : Bool :=
  match ngLookup g nm with
  | none => false
  | some s => s != ""

/-! ### The parser engine (`Parser.parse`) -/

/-- Outcome of handling one token match inside the per-line loop. -/
inductive MatchStep where
  /-- a metadata match: record key/value, `continue stepLoop` -/
  | abandon (key value : String)
  /-- updated accumulators and scan position -/
  | cont (ings : List Ingredient) (cooks : List Cookware)
      (items : List StepItem) (pos : Nat)
deriving DecidableEq, Repr

/-- The body of `for (let match of line.matchAll(tokens))`: metadata check,
text gap, then the single-word/multiword ingredient, single-word/multiword
cookware and timer branches, in source order. -/
def processMatch (cfg : Config) (stepNumber : Nat) (line : String) (pos : Nat)
    (m : TokenMatch) (ings : List Ingredient) (cooks : List Cookware)
    (items : List StepItem) : Except String MatchStep :=
  match createNamedGroups m.caps "metadata" with
  | .error e => .error e
  | .ok mdG =>
  if ngTruthy mdG "key" && ngTruthy mdG "value" then
    .ok (.abandon (jsTrim (ngStr mdG "key")) (jsTrim (ngStr mdG "value")))
  else
  let items0 :=
    items ++ (if pos < m.index then [StepItem.text (jsSubstring line pos m.index)] else [])
  match createNamedGroups m.caps "singleWordIngredient" with
  | .error e => .error e
  | .ok sIG =>
  let sIng : Ingredient :=
    { name := ngStr sIG "sIngredientName"
      quantity := cfg.defaultIngredientAmount
      units := cfg.defaultUnits
      preparation := none
      step := if cfg.includeStepNumber then some stepNumber else none }
  let ings1 := ings ++ (if ngTruthy sIG "sIngredientName" then [sIng] else [])
  let items1 :=
    items0 ++ (if ngTruthy sIG "sIngredientName" then [StepItem.ingredient sIng] else [])
  match createNamedGroups m.caps "multiwordIngredient" with
  | .error e => .error e
  | .ok mIG =>
  let mIng : Ingredient :=
    { name := ngStr mIG "mIngredientName"
      quantity := (parseQuantity (ngLookup mIG "mIngredientQuantity")).getD
        cfg.defaultIngredientAmount
      units := (parseUnits (ngLookup mIG "mIngredientUnits")).getD cfg.defaultUnits
      preparation :=
        if ngTruthy mIG "mIngredientPreparation" then ngLookup mIG "mIngredientPreparation"
        else none
      step := if cfg.includeStepNumber then some stepNumber else none }
  let ings2 := ings1 ++ (if ngTruthy mIG "mIngredientName" then [mIng] else [])
  let items2 :=
    items1 ++ (if ngTruthy mIG "mIngredientName" then [StepItem.ingredient mIng] else [])
  match createNamedGroups m.caps "singleWordCookware" with
  | .error e => .error e
  | .ok sCG =>
  let sCook : Cookware :=
    { name := ngStr sCG "sCookwareName"
      quantity := cfg.defaultCookwareAmount
      step := if cfg.includeStepNumber then some stepNumber else none }
  let cooks1 := cooks ++ (if ngTruthy sCG "sCookwareName" then [sCook] else [])
  let items3 :=
    items2 ++ (if ngTruthy sCG "sCookwareName" then [StepItem.cookware sCook] else [])
  match createNamedGroups m.caps "multiwordCookware" with
  | .error e => .error e
  | .ok mCG =>
  let mCook : Cookware :=
    { name := ngStr mCG "mCookwareName"
      quantity := (parseQuantity (ngLookup mCG "mCookwareQuantity")).getD
        cfg.defaultCookwareAmount
      step := if cfg.includeStepNumber then some stepNumber else none }
  let cooks2 := cooks1 ++ (if ngTruthy mCG "mCookwareName" then [mCook] else [])
  let items4 :=
    items3 ++ (if ngTruthy mCG "mCookwareName" then [StepItem.cookware mCook] else [])
  match createNamedGroups m.caps "timer" with
  | .error e => .error e
  | .ok tG =>
  let tItem : Timer :=
    { name := ngStr tG "timerName"
      quantity := (parseQuantity (ngLookup tG "timerQuantity")).getD (Amount.num 0)
      units := (parseUnits (ngLookup tG "timerUnits")).getD cfg.defaultUnits }
  let items5 :=
    items4 ++ (if ngTruthy tG "timerQuantity" then [StepItem.timer tItem] else [])
  .ok (.cont ings2 cooks2 items5 (m.index + m.length))

/-- Result of the per-line match loop. -/
inductive MatchLoopResult where
  /-- the line hit a metadata match (`continue stepLoop`): the flat-list
  accumulators survive, the step items are discarded -/
  | abandoned (ings : List Ingredient) (cooks : List Cookware) (key value : String)
  | done (ings : List Ingredient) (cooks : List Cookware)
      (items : List StepItem) (pos : Nat)
deriving DecidableEq, Repr

/-- The per-line loop over the token matches. -/
def matchLoop (cfg : Config) (stepNumber : Nat) (line : String) :
    List TokenMatch → Nat → List Ingredient → List Cookware → List StepItem →
    Except String MatchLoopResult
  | [], pos, ings, cooks, items => .ok (.done ings cooks items pos)
  | m :: ms, pos, ings, cooks, items =>
    match processMatch cfg stepNumber line pos m ings cooks items with
    | .error e => .error e
    | .ok (.abandon k v) => .ok (.abandoned ings cooks k v)
    | .ok (.cont ings' cooks' items' pos') =>
      matchLoop cfg stepNumber line ms pos' ings' cooks' items'

/-- The `stepLoop` over the lines: trailing text is appended after the
match loop, empty steps are discarded, the step counter increments only
when a step is appended. -/
def linesLoop (cfg : Config) :
    List String → Nat → List Ingredient → List Cookware → Metadata → List Step →
    Except String (List Ingredient × List Cookware × Metadata × List Step × Nat)
  | [], n, ings, cooks, md, steps => .ok (ings, cooks, md, steps, n)
  | line :: rest, n, ings, cooks, md, steps =>
    match matchLoop cfg n line (lineMatches line) 0 [] [] [] with
    | .error e => .error e
    | .ok (.abandoned ings' cooks' k v) =>
      linesLoop cfg rest n (ings ++ ings') (cooks ++ cooks') (mdInsert k v md) steps
    | .ok (.done ings' cooks' items pos) =>
      let items' :=
        items ++ (if pos < line.data.length then [StepItem.text (jsSubstringFrom line pos)] else [])
      if items'.isEmpty then
        linesLoop cfg rest n (ings ++ ings') (cooks ++ cooks') md steps
      else
        linesLoop cfg rest (n + 1) (ings ++ ings') (cooks ++ cooks') md (steps ++ [items'])

/-- The shopping-list extraction loop.  The iterator was created on the
pre-loop source, so the matches are those of the original text.  Each hit
would store the parsed category and truncate `source`; the source's removal
statement is `source = source.substring(0, match.index || 0);` followed by
the no-op expression statement `+source.substring(...)`, so only the prefix
assignment has effect. -/
def slLoop : List TokenMatch → ShoppingList → String →
    Except String (ShoppingList × String)
  | [], sl, src => .ok (sl, src)
  | m :: ms, sl, src =>
    match createNamedGroups m.caps "shoppingList" with
    | .error e => .error e
    | .ok g =>
      if ngTruthy g "name" then
        slLoop ms
          (slInsert (ngStr g "name") (parseShoppingListCategory (ngStr g "items")) sl)
          (jsSubstring src 0 m.index)
      else slLoop ms sl src

/-- `source.replace(comment, "")`. -/
def stripLineComments (s : String) : String := replaceRE commentRE "" s

/-- `source.replace(blockComment, " ")`. -/
def stripBlockComments (s : String) : String := replaceRE blockCommentRE " " s

/-- `Parser.parse(source)`. -/
def parse (cfg : Config) (source : String) : Except String ParseResult :=
  let source := stripBlockComments (stripLineComments source)
  match slLoop (scanRE shoppingListRE source) [] source with
  | .error e => .error e
  | .ok (sl, source) =>
    let lines := (splitLines source).filter (fun l => jsTrim l != "")
    match linesLoop cfg lines 0 [] [] [] [] with
    | .error e => .error e
    | .ok (ings, cooks, md, steps, _) =>
      .ok { ingredients := ings, cookwares := cooks, metadata := md,
            steps := steps, shoppingList := sl }

/-- The Ingredient items of a step, in order. -/
def stepIngredients (s : Step) : List Ingredient :=
  s.filterMap fun it =>
    match it with
    | .ingredient i => some i
    | _ => none

/-- The Cookware items of a step, in order. -/
def stepCookwares (s : Step) : List Cookware :=
  s.filterMap fun it =>
    match it with
    | .cookware c => some c
    | _ => none

end Cooklang

/-! ## Lemma layer

Facts about the embedding used by the claim theorems: lookups on extracted
named groups, the capture-group domain of the matcher, and the structure of
the per-match and per-line loops. -/

namespace Cooklang

theorem ngLookup_extract_nil (caps : Caps) (nm : String) :
    ngLookup (extractGroups caps []) nm = none := rfl

theorem ngLookup_extract_absent (caps : Caps) (nm : String)
    (mapping : List (String × Nat)) (h : ∀ q ∈ mapping, q.1 ≠ nm) :
    ngLookup (extractGroups caps mapping) nm = none := by
  induction mapping with
  | nil => rfl
  | cons q rest ih =>
    have hq : q.1 ≠ nm := h q (List.mem_cons_self q rest)
    have hrest : ∀ p ∈ rest, p.1 ≠ nm := fun p hp => h p (List.mem_cons_of_mem q hp)
    cases hc : capLookup q.2 caps with
    | none =>
      simp only [extractGroups, List.filterMap_cons, hc, Option.map_none']
      exact ih hrest
    | some v =>
      simp only [extractGroups, List.filterMap_cons, hc, Option.map_some']
      simp only [ngLookup, List.find?_cons]
      have : (q.1 == nm) = false := by
        simp [hq]
      simp only [this]
      exact ih hrest

theorem ngLookup_extract_head (caps : Caps) (nm : String) (i : Nat)
    (rest : List (String × Nat)) (h : ∀ q ∈ rest, q.1 ≠ nm) :
    ngLookup (extractGroups caps ((nm, i) :: rest)) nm = capLookup i caps := by
  cases hc : capLookup i caps with
  | none =>
    simp only [extractGroups, List.filterMap_cons, hc, Option.map_none']
    exact ngLookup_extract_absent caps nm rest h
  | some v =>
    simp only [extractGroups, List.filterMap_cons, hc, Option.map_some']
    simp [ngLookup, List.find?_cons]

theorem ngLookup_extract_tail (caps : Caps) (nm nm' : String) (i : Nat)
    (rest : List (String × Nat)) (h : nm ≠ nm') :
    ngLookup (extractGroups caps ((nm, i) :: rest)) nm' =
      ngLookup (extractGroups caps rest) nm' := by
  cases hc : capLookup i caps with
  | none => simp only [extractGroups, List.filterMap_cons, hc, Option.map_none']
  | some v =>
    simp only [extractGroups, List.filterMap_cons, hc, Option.map_some']
    simp only [ngLookup, List.find?_cons]
    have : (nm == nm') = false := by simp [h]
    simp only [this]

end Cooklang

namespace Cooklang

theorem lazyStar_caps (p : Char → Bool) (caps : Caps) (k : MK) :
    ∀ cs r, lazyStar p caps k cs = some r → ∃ cs', k cs' caps = some r := by
  intro cs
  induction cs with
  | nil => intro r h; exact ⟨[], h⟩
  | cons c rest ih =>
    intro r h
    simp only [lazyStar] at h
    cases hk : k (c :: rest) caps with
    | some r' =>
      rw [hk] at h
      exact ⟨c :: rest, by rw [hk]; exact h⟩
    | none =>
      rw [hk] at h
      by_cases hp : p c
      · rw [if_pos hp] at h
        exact ih r h
      · rw [if_neg hp] at h
        exact absurd h (by simp)

theorem greedyStar_caps (p : Char → Bool) (caps : Caps) (k : MK) :
    ∀ cs r, greedyStar p caps k cs = some r → ∃ cs', k cs' caps = some r := by
  intro cs
  induction cs with
  | nil => intro r h; exact ⟨[], h⟩
  | cons c rest ih =>
    intro r h
    simp only [greedyStar] at h
    by_cases hp : p c
    · rw [if_pos hp] at h
      cases hg : greedyStar p caps k rest with
      | some r' =>
        rw [hg] at h
        obtain ⟨cs', hcs'⟩ := ih r' hg
        exact ⟨cs', by rw [hcs', ← h]⟩
      | none =>
        rw [hg] at h
        exact ⟨c :: rest, h⟩
    · rw [if_neg hp] at h
      exact ⟨c :: rest, h⟩

theorem mrun_caps (re : RE) :
    ∀ cs caps (k : MK) r, mrun re cs caps k = some r →
      ∃ cs' caps', k cs' caps' = some r ∧
        ∀ q ∈ caps', q ∈ caps ∨ q.1 ∈ REgroups re := by
  induction re with
  | eps =>
    intro cs caps k r h
    exact ⟨cs, caps, h, fun q hq => Or.inl hq⟩
  | lit ch =>
    intro cs caps k r h
    cases cs with
    | nil => exact absurd h (by simp [mrun])
    | cons c rest =>
      simp only [mrun] at h
      by_cases hc : c = ch
      · rw [if_pos hc] at h
        exact ⟨rest, caps, h, fun q hq => Or.inl hq⟩
      · rw [if_neg hc] at h
        exact absurd h (by simp)
  | cls p =>
    intro cs caps k r h
    cases cs with
    | nil => exact absurd h (by simp [mrun])
    | cons c rest =>
      simp only [mrun] at h
      by_cases hc : p c
      · rw [if_pos hc] at h
        exact ⟨rest, caps, h, fun q hq => Or.inl hq⟩
      · rw [if_neg hc] at h
        exact absurd h (by simp)
  | eos =>
    intro cs caps k r h
    simp only [mrun] at h
    by_cases hc : cs.isEmpty
    · rw [if_pos hc] at h
      exact ⟨cs, caps, h, fun q hq => Or.inl hq⟩
    · rw [if_neg hc] at h
      exact absurd h (by simp)
  | cat a b iha ihb =>
    intro cs caps k r h
    simp only [mrun] at h
    obtain ⟨cs1, caps1, h1, sub1⟩ := iha cs caps _ r h
    obtain ⟨cs2, caps2, h2, sub2⟩ := ihb cs1 caps1 k r h1
    refine ⟨cs2, caps2, h2, fun q hq => ?_⟩
    rcases sub2 q hq with hin | hg
    · rcases sub1 q hin with hin' | hg'
      · exact Or.inl hin'
      · exact Or.inr (by simp [REgroups, hg'])
    · exact Or.inr (by simp [REgroups, hg])
  | alt a b iha ihb =>
    intro cs caps k r h
    simp only [mrun] at h
    cases ha : mrun a cs caps k with
    | some r' =>
      rw [ha] at h
      obtain ⟨cs', caps', h', sub⟩ := iha cs caps k r' ha
      refine ⟨cs', caps', by rw [h', ← h], fun q hq => ?_⟩
      rcases sub q hq with hin | hg
      · exact Or.inl hin
      · exact Or.inr (by simp [REgroups, hg])
    | none =>
      rw [ha] at h
      obtain ⟨cs', caps', h', sub⟩ := ihb cs caps k r h
      refine ⟨cs', caps', h', fun q hq => ?_⟩
      rcases sub q hq with hin | hg
      · exact Or.inl hin
      · exact Or.inr (by simp [REgroups, hg])
  | opt a iha =>
    intro cs caps k r h
    simp only [mrun] at h
    cases ha : mrun a cs caps k with
    | some r' =>
      rw [ha] at h
      obtain ⟨cs', caps', h', sub⟩ := iha cs caps k r' ha
      exact ⟨cs', caps', by rw [h', ← h], fun q hq => sub q hq⟩
    | none =>
      rw [ha] at h
      exact ⟨cs, caps, h, fun q hq => Or.inl hq⟩
  | starL p =>
    intro cs caps k r h
    simp only [mrun] at h
    obtain ⟨cs', h'⟩ := lazyStar_caps p caps k cs r h
    exact ⟨cs', caps, h', fun q hq => Or.inl hq⟩
  | plusL p =>
    intro cs caps k r h
    cases cs with
    | nil => exact absurd h (by simp [mrun])
    | cons c rest =>
      simp only [mrun] at h
      by_cases hc : p c
      · rw [if_pos hc] at h
        obtain ⟨cs', h'⟩ := lazyStar_caps p caps k rest r h
        exact ⟨cs', caps, h', fun q hq => Or.inl hq⟩
      · rw [if_neg hc] at h
        exact absurd h (by simp)
  | starG p =>
    intro cs caps k r h
    simp only [mrun] at h
    obtain ⟨cs', h'⟩ := greedyStar_caps p caps k cs r h
    exact ⟨cs', caps, h', fun q hq => Or.inl hq⟩
  | plusG p =>
    intro cs caps k r h
    cases cs with
    | nil => exact absurd h (by simp [mrun])
    | cons c rest =>
      simp only [mrun] at h
      by_cases hc : p c
      · rw [if_pos hc] at h
        obtain ⟨cs', h'⟩ := greedyStar_caps p caps k rest r h
        exact ⟨cs', caps, h', fun q hq => Or.inl hq⟩
      · rw [if_neg hc] at h
        exact absurd h (by simp)
  | group i a iha =>
    intro cs caps k r h
    simp only [mrun] at h
    obtain ⟨cs1, caps1, h1, sub⟩ := iha cs caps _ r h
    refine ⟨cs1, (i, ((cs.take (cs.length - cs1.length)).asString)) :: caps1, h1, fun q hq => ?_⟩
    rcases List.mem_cons.mp hq with heq | hin
    · exact Or.inr (by simp [REgroups, heq])
    · rcases sub q hin with hin' | hg
      · exact Or.inl hin'
      · exact Or.inr (by simp [REgroups, hg])

theorem tryRE_caps (re : RE) (cs : List Char) (len : Nat) (caps : Caps)
    (h : tryRE re cs = some (len, caps)) : ∀ q ∈ caps, q.1 ∈ REgroups re := by
  simp only [tryRE] at h
  cases hm : mrun re cs [] (fun rest caps => some (rest, caps)) with
  | none => rw [hm] at h; exact absurd h (by simp)
  | some r =>
    rw [hm] at h
    obtain ⟨cs', caps', h', sub⟩ := mrun_caps re cs [] _ r hm
    intro q hq
    have hr : r = (cs', caps') := by
      have := h'
      simp only [Option.some.injEq] at this
      exact this.symm
    subst hr
    simp only [Option.some.injEq, Prod.mk.injEq] at h
    rcases sub q (by rw [h.2]; exact hq) with hin | hg
    · exact absurd hin (List.not_mem_nil q)
    · exact hg

end Cooklang

namespace Cooklang

theorem cng_metadata (caps : Caps) :
    createNamedGroups caps "metadata" =
      .ok (extractGroups caps [("key", 1), ("value", 2)]) := rfl

theorem cng_singleWordIngredient (caps : Caps) :
    createNamedGroups caps "singleWordIngredient" =
      .ok (extractGroups caps [("sIngredientName", 7)]) := rfl

theorem cng_multiwordIngredient (caps : Caps) :
    createNamedGroups caps "multiwordIngredient" =
      .ok (extractGroups caps [("mIngredientName", 3), ("mIngredientQuantity", 4),
        ("mIngredientUnits", 5), ("mIngredientPreparation", 6)]) := rfl

theorem cng_singleWordCookware (caps : Caps) :
    createNamedGroups caps "singleWordCookware" =
      .ok (extractGroups caps [("sCookwareName", 10)]) := rfl

theorem cng_multiwordCookware (caps : Caps) :
    createNamedGroups caps "multiwordCookware" =
      .ok (extractGroups caps [("mCookwareName", 8), ("mCookwareQuantity", 9)]) := rfl

theorem cng_timer (caps : Caps) :
    createNamedGroups caps "timer" =
      .ok (extractGroups caps [("timerName", 11), ("timerQuantity", 12),
        ("timerUnits", 13)]) := rfl

theorem cng_shoppingList (caps : Caps) :
    createNamedGroups caps "shoppingList" =
      .ok (extractGroups caps [("name", 14), ("items", 15)]) := rfl

theorem ngTruthy_eq (g : NamedGroups) (nm : String) :
    ngTruthy g nm = jsStrTruthy (ngLookup g nm) := rfl

theorem ng_meta_key (caps : Caps) :
    ngLookup (extractGroups caps [("key", 1), ("value", 2)]) "key" = capLookup 1 caps :=
  ngLookup_extract_head _ _ _ _ (by decide)

theorem ng_meta_value (caps : Caps) :
    ngLookup (extractGroups caps [("key", 1), ("value", 2)]) "value" = capLookup 2 caps := by
  rw [ngLookup_extract_tail _ _ _ _ _ (by decide)]
  exact ngLookup_extract_head _ _ _ _ (by decide)

theorem ng_sIng_name (caps : Caps) :
    ngLookup (extractGroups caps [("sIngredientName", 7)]) "sIngredientName" =
      capLookup 7 caps :=
  ngLookup_extract_head _ _ _ _ (by decide)

theorem ng_timer_name (caps : Caps) :
    ngLookup (extractGroups caps [("timerName", 11), ("timerQuantity", 12),
      ("timerUnits", 13)]) "timerName" = capLookup 11 caps :=
  ngLookup_extract_head _ _ _ _ (by decide)

theorem ng_timer_quantity (caps : Caps) :
    ngLookup (extractGroups caps [("timerName", 11), ("timerQuantity", 12),
      ("timerUnits", 13)]) "timerQuantity" = capLookup 12 caps := by
  rw [ngLookup_extract_tail _ _ _ _ _ (by decide)]
  exact ngLookup_extract_head _ _ _ _ (by decide)

theorem ng_timer_units (caps : Caps) :
    ngLookup (extractGroups caps [("timerName", 11), ("timerQuantity", 12),
      ("timerUnits", 13)]) "timerUnits" = capLookup 13 caps := by
  rw [ngLookup_extract_tail _ _ _ _ _ (by decide),
    ngLookup_extract_tail _ _ _ _ _ (by decide)]
  exact ngLookup_extract_head _ _ _ _ (by decide)

theorem ng_mIng_name (caps : Caps) :
    ngLookup (extractGroups caps [("mIngredientName", 3), ("mIngredientQuantity", 4),
      ("mIngredientUnits", 5), ("mIngredientPreparation", 6)]) "mIngredientName" =
      capLookup 3 caps :=
  ngLookup_extract_head _ _ _ _ (by decide)

theorem ng_sCook_name (caps : Caps) :
    ngLookup (extractGroups caps [("sCookwareName", 10)]) "sCookwareName" =
      capLookup 10 caps :=
  ngLookup_extract_head _ _ _ _ (by decide)

theorem ng_mCook_name (caps : Caps) :
    ngLookup (extractGroups caps [("mCookwareName", 8), ("mCookwareQuantity", 9)])
      "mCookwareName" = capLookup 8 caps :=
  ngLookup_extract_head _ _ _ _ (by decide)

theorem ng_sl_name (caps : Caps) :
    ngLookup (extractGroups caps [("name", 14), ("items", 15)]) "name" =
      capLookup 14 caps :=
  ngLookup_extract_head _ _ _ _ (by decide)

end Cooklang

namespace Cooklang

theorem processMatch_total (cfg : Config) (n : Nat) (line : String) (pos : Nat)
    (m : TokenMatch) (ings : List Ingredient) (cooks : List Cookware)
    (items : List StepItem) :
    (∃ k v, processMatch cfg n line pos m ings cooks items = .ok (.abandon k v)) ∨
    (∃ I C T P, processMatch cfg n line pos m ings cooks items = .ok (.cont I C T P)) := by
  simp only [processMatch, cng_metadata, cng_singleWordIngredient,
    cng_multiwordIngredient, cng_singleWordCookware, cng_multiwordCookware, cng_timer]
  split
  · exact Or.inl ⟨_, _, rfl⟩
  · exact Or.inr ⟨_, _, _, _, rfl⟩

theorem processMatch_no_meta (cfg : Config) (n : Nat) (line : String) (pos : Nat)
    (m : TokenMatch) (ings : List Ingredient) (cooks : List Cookware)
    (items : List StepItem) (h1 : capLookup 1 m.caps = none) (k v : String) :
    processMatch cfg n line pos m ings cooks items ≠ .ok (.abandon k v) := by
  simp only [processMatch, cng_metadata, cng_singleWordIngredient,
    cng_multiwordIngredient, cng_singleWordCookware, cng_multiwordCookware, cng_timer,
    ngTruthy_eq, ng_meta_key, h1, jsStrTruthy, Bool.false_and, Bool.false_eq_true,
    if_false]
  intro h
  exact MatchStep.noConfusion (Except.ok.inj h)

theorem stepIngredients_append (a b : Step) :
    stepIngredients (a ++ b) = stepIngredients a ++ stepIngredients b := by
  simp [stepIngredients, List.filterMap_append]

theorem stepCookwares_append (a b : Step) :
    stepCookwares (a ++ b) = stepCookwares a ++ stepCookwares b := by
  simp [stepCookwares, List.filterMap_append]

theorem stepIngredients_ite (c : Prop) [Decidable c] (a b : Step) :
    stepIngredients (if c then a else b) =
      if c then stepIngredients a else stepIngredients b := apply_ite stepIngredients c a b

theorem stepCookwares_ite (c : Prop) [Decidable c] (a b : Step) :
    stepCookwares (if c then a else b) =
      if c then stepCookwares a else stepCookwares b := apply_ite stepCookwares c a b

theorem stepIngredients_nil : stepIngredients [] = [] := rfl
theorem stepIngredients_text (s : String) : stepIngredients [StepItem.text s] = [] := rfl
theorem stepIngredients_ing (i : Ingredient) :
    stepIngredients [StepItem.ingredient i] = [i] := rfl
theorem stepIngredients_cook (c : Cookware) :
    stepIngredients [StepItem.cookware c] = [] := rfl
theorem stepIngredients_timer (t : Timer) :
    stepIngredients [StepItem.timer t] = [] := rfl
theorem stepCookwares_nil : stepCookwares [] = [] := rfl
theorem stepCookwares_text (s : String) : stepCookwares [StepItem.text s] = [] := rfl
theorem stepCookwares_ing (i : Ingredient) :
    stepCookwares [StepItem.ingredient i] = [] := rfl
theorem stepCookwares_cook (c : Cookware) :
    stepCookwares [StepItem.cookware c] = [c] := rfl
theorem stepCookwares_timer (t : Timer) :
    stepCookwares [StepItem.timer t] = [] := rfl

theorem processMatch_spec (cfg : Config) (n : Nat) (line : String) (pos : Nat)
    (m : TokenMatch) (ings : List Ingredient) (cooks : List Cookware)
    (items : List StepItem) (I : List Ingredient) (C : List Cookware)
    (T : List StepItem) (P : Nat)
    (h : processMatch cfg n line pos m ings cooks items = .ok (.cont I C T P)) :
    (stepIngredients items = ings → stepIngredients T = I) ∧
    (stepCookwares items = cooks → stepCookwares T = C) ∧
    ((∀ i ∈ stepIngredients items, i.step = if cfg.includeStepNumber then some n else none) →
      ∀ i ∈ stepIngredients T, i.step = if cfg.includeStepNumber then some n else none) ∧
    ((∀ c ∈ stepCookwares items, c.step = if cfg.includeStepNumber then some n else none) →
      ∀ c ∈ stepCookwares T, c.step = if cfg.includeStepNumber then some n else none) := by
  simp only [processMatch, cng_metadata, cng_singleWordIngredient,
    cng_multiwordIngredient, cng_singleWordCookware, cng_multiwordCookware,
    cng_timer] at h
  split at h
  · exact absurd (Except.ok.inj h) (fun hh => MatchStep.noConfusion hh)
  · simp only [Except.ok.injEq, MatchStep.cont.injEq] at h
    obtain ⟨hI, hC, hT, hP⟩ := h
    subst hI; subst hC; subst hT
    simp only [stepIngredients_append, stepCookwares_append,
      stepIngredients_ite, stepCookwares_ite, stepIngredients_nil,
      stepIngredients_text, stepIngredients_ing, stepIngredients_cook,
      stepIngredients_timer, stepCookwares_nil, stepCookwares_text,
      stepCookwares_ing, stepCookwares_cook, stepCookwares_timer, ite_self,
      List.append_nil, List.nil_append, List.append_assoc, List.mem_append]
    refine ⟨fun hinv => by rw [hinv], fun hinv => by rw [hinv], ?_, ?_⟩
    · intro hinv i hi
      rcases hi with hi | hi | hi
      · exact hinv i hi
      · revert hi; split <;> intro hi
        · simp only [List.mem_singleton] at hi
          subst hi; rfl
        · exact absurd hi (List.not_mem_nil i)
      · revert hi; split <;> intro hi
        · simp only [List.mem_singleton] at hi
          subst hi; rfl
        · exact absurd hi (List.not_mem_nil i)
    · intro hinv c hc
      rcases hc with hc | hc | hc
      · exact hinv c hc
      · revert hc; split <;> intro hc
        · simp only [List.mem_singleton] at hc
          subst hc; rfl
        · exact absurd hc (List.not_mem_nil c)
      · revert hc; split <;> intro hc
        · simp only [List.mem_singleton] at hc
          subst hc; rfl
        · exact absurd hc (List.not_mem_nil c)

end Cooklang

namespace Cooklang

theorem matchLoop_total (cfg : Config) (n : Nat) (line : String) :
    ∀ (ms : List TokenMatch) (pos : Nat) ings cooks items,
      ∃ r, matchLoop cfg n line ms pos ings cooks items = .ok r := by
  intro ms
  induction ms with
  | nil => intro pos ings cooks items; exact ⟨_, rfl⟩
  | cons m ms ih =>
    intro pos ings cooks items
    rcases processMatch_total cfg n line pos m ings cooks items with
      ⟨k, v, hp⟩ | ⟨I, C, T, P, hp⟩
    · exact ⟨.abandoned ings cooks k v, by simp only [matchLoop, hp]⟩
    · obtain ⟨r, hr⟩ := ih P I C T
      exact ⟨r, by simp only [matchLoop, hp]; exact hr⟩

theorem matchLoop_no_abandon (cfg : Config) (n : Nat) (line : String) :
    ∀ (ms : List TokenMatch), (∀ m ∈ ms, capLookup 1 m.caps = none) →
      ∀ (pos : Nat) ings cooks items I C k v,
        matchLoop cfg n line ms pos ings cooks items ≠ .ok (.abandoned I C k v) := by
  intro ms
  induction ms with
  | nil =>
    intro _ pos ings cooks items I C k v h
    simp only [matchLoop, Except.ok.injEq] at h
    exact MatchLoopResult.noConfusion h
  | cons m ms ih =>
    intro hcaps pos ings cooks items I C k v h
    have hm : capLookup 1 m.caps = none := hcaps m (List.mem_cons_self m ms)
    simp only [matchLoop] at h
    cases hp : processMatch cfg n line pos m ings cooks items with
    | error e => rw [hp] at h; exact Except.noConfusion h
    | ok st =>
      cases st with
      | abandon k' v' =>
        exact processMatch_no_meta cfg n line pos m ings cooks items hm k' v' hp
      | cont I' C' T' P' =>
        rw [hp] at h
        exact ih (fun q hq => hcaps q (List.mem_cons_of_mem m hq)) P' I' C' T' I C k v h

theorem matchLoop_done_spec (cfg : Config) (n : Nat) (line : String) :
    ∀ (ms : List TokenMatch) (pos : Nat) ings cooks items I C T P,
      matchLoop cfg n line ms pos ings cooks items = .ok (.done I C T P) →
      (stepIngredients items = ings → stepIngredients T = I) ∧
      (stepCookwares items = cooks → stepCookwares T = C) ∧
      ((∀ i ∈ stepIngredients items, i.step = if cfg.includeStepNumber then some n else none) →
        ∀ i ∈ stepIngredients T, i.step = if cfg.includeStepNumber then some n else none) ∧
      ((∀ c ∈ stepCookwares items, c.step = if cfg.includeStepNumber then some n else none) →
        ∀ c ∈ stepCookwares T, c.step = if cfg.includeStepNumber then some n else none) := by
  intro ms
  induction ms with
  | nil =>
    intro pos ings cooks items I C T P h
    simp only [matchLoop, Except.ok.injEq, MatchLoopResult.done.injEq] at h
    obtain ⟨hI, hC, hT, _⟩ := h
    subst hI; subst hC; subst hT
    exact ⟨id, id, id, id⟩
  | cons m ms ih =>
    intro pos ings cooks items I C T P h
    simp only [matchLoop] at h
    cases hp : processMatch cfg n line pos m ings cooks items with
    | error e => rw [hp] at h; exact Except.noConfusion h
    | ok st =>
      cases st with
      | abandon k' v' =>
        rw [hp] at h
        simp only [Except.ok.injEq] at h
        exact MatchLoopResult.noConfusion h
      | cont I' C' T' P' =>
        rw [hp] at h
        obtain ⟨h1, h2, h3, h4⟩ := processMatch_spec cfg n line pos m ings cooks items I' C' T' P' hp
        obtain ⟨g1, g2, g3, g4⟩ := ih P' I' C' T' I C T P h
        exact ⟨fun hi => g1 (h1 hi), fun hc => g2 (h2 hc),
          fun hi => g3 (h3 hi), fun hc => g4 (h4 hc)⟩

theorem matchLoop_abandoned_spec (cfg : Config) (n : Nat) (line : String)
    (m0 : TokenMatch) (ms : List TokenMatch)
    (hcaps : ∀ m ∈ ms, capLookup 1 m.caps = none)
    (pos : Nat) (ings : List Ingredient) (cooks : List Cookware)
    (items : List StepItem) (I : List Ingredient) (C : List Cookware) (k v : String)
    (h : matchLoop cfg n line (m0 :: ms) pos ings cooks items = .ok (.abandoned I C k v)) :
    I = ings ∧ C = cooks := by
  simp only [matchLoop] at h
  cases hp : processMatch cfg n line pos m0 ings cooks items with
  | error e => rw [hp] at h; exact Except.noConfusion h
  | ok st =>
    cases st with
    | abandon k' v' =>
      rw [hp] at h
      simp only [Except.ok.injEq, MatchLoopResult.abandoned.injEq] at h
      exact ⟨h.1.symm, h.2.1.symm⟩
    | cont I' C' T' P' =>
      rw [hp] at h
      exact absurd h (matchLoop_no_abandon cfg n line ms hcaps P' I' C' T' I C k v)

end Cooklang

namespace Cooklang

theorem capLookup_eq_none (caps : Caps) (i : Nat) (h : ∀ q ∈ caps, q.1 ≠ i) :
    capLookup i caps = none := by
  simp only [capLookup, Option.map_eq_none']
  apply List.find?_eq_none.mpr
  intro p hp
  simpa using h p hp

theorem no_cap1_of_tryRE (re : RE) (hre : 1 ∉ REgroups re) (cs : List Char)
    (len : Nat) (caps : Caps) (h : tryRE re cs = some (len, caps)) :
    capLookup 1 caps = none :=
  capLookup_eq_none caps 1 (fun q hq hqi =>
    hre (hqi ▸ tryRE_caps re cs len caps h q hq))

theorem tryTokenAt_nonzero_no_meta (pos : Nat) (cs : List Char) (len : Nat)
    (caps : Caps) (hpos : pos ≠ 0)
    (h : tryTokenAt pos cs = some (len, caps)) : capLookup 1 caps = none := by
  simp only [tryTokenAt, if_neg hpos] at h
  cases h1 : tryRE multiwordIngredientRE cs with
  | some r =>
    rw [h1] at h
    obtain rfl : r = (len, caps) := by simpa using h
    exact no_cap1_of_tryRE _ (by decide) _ _ _ h1
  | none =>
  rw [h1] at h
  cases h2 : tryRE singleWordIngredientRE cs with
  | some r =>
    rw [h2] at h
    obtain rfl : r = (len, caps) := by simpa using h
    exact no_cap1_of_tryRE _ (by decide) _ _ _ h2
  | none =>
  rw [h2] at h
  cases h3 : tryRE multiwordCookwareRE cs with
  | some r =>
    rw [h3] at h
    obtain rfl : r = (len, caps) := by simpa using h
    exact no_cap1_of_tryRE _ (by decide) _ _ _ h3
  | none =>
  rw [h3] at h
  cases h4 : tryRE singleWordCookwareRE cs with
  | some r =>
    rw [h4] at h
    obtain rfl : r = (len, caps) := by simpa using h
    exact no_cap1_of_tryRE _ (by decide) _ _ _ h4
  | none =>
  rw [h4] at h
  exact no_cap1_of_tryRE _ (by decide) _ _ _ h

theorem scanTokensAux_mem (orig : List Char) :
    ∀ (fuel pos : Nat) (m : TokenMatch), m ∈ scanTokensAux orig fuel pos →
      pos ≤ m.index ∧
        tryTokenAt m.index (orig.drop m.index) = some (m.length, m.caps) := by
  intro fuel
  induction fuel with
  | zero => intro pos m hm; exact absurd hm (List.not_mem_nil m)
  | succ fuel ih =>
    intro pos m hm
    simp only [scanTokensAux] at hm
    by_cases hlt : pos < orig.length
    · rw [if_pos hlt] at hm
      cases htry : tryTokenAt pos (orig.drop pos) with
      | none =>
        rw [htry] at hm
        obtain ⟨h1, h2⟩ := ih (pos + 1) m hm
        exact ⟨le_trans (Nat.le_succ pos) h1, h2⟩
      | some r =>
        rw [htry] at hm
        obtain ⟨len, caps⟩ := r
        rcases List.mem_cons.mp hm with rfl | hm'
        · exact ⟨le_refl _, htry⟩
        · obtain ⟨h1, h2⟩ := ih (pos + max len 1) m hm'
          refine ⟨le_trans ?_ h1, h2⟩
          omega
    · rw [if_neg hlt] at hm
      exact absurd hm (List.not_mem_nil m)

theorem scanTokensAux_tail (orig : List Char) :
    ∀ (fuel pos : Nat) (m0 : TokenMatch) (rest : List TokenMatch),
      scanTokensAux orig fuel pos = m0 :: rest →
      ∀ m ∈ rest, m0.index + 1 ≤ m.index := by
  intro fuel
  induction fuel with
  | zero => intro pos m0 rest h; exact absurd h (by simp [scanTokensAux])
  | succ fuel ih =>
    intro pos m0 rest h m hm
    simp only [scanTokensAux] at h
    by_cases hlt : pos < orig.length
    · rw [if_pos hlt] at h
      cases htry : tryTokenAt pos (orig.drop pos) with
      | none =>
        rw [htry] at h
        exact ih (pos + 1) m0 rest h m hm
      | some r =>
        rw [htry] at h
        obtain ⟨len, caps⟩ := r
        simp only [List.cons.injEq] at h
        obtain ⟨rfl, hrest⟩ := h
        have := (scanTokensAux_mem orig fuel (pos + max len 1) m (hrest ▸ hm)).1
        simp only
        omega
    · rw [if_neg hlt] at h
      exact absurd h (by simp)

theorem lineMatches_tail_no_meta (line : String) (m0 : TokenMatch)
    (rest : List TokenMatch) (h : lineMatches line = m0 :: rest) :
    ∀ m ∈ rest, capLookup 1 m.caps = none := by
  intro m hm
  have hmem : m ∈ lineMatches line := by
    rw [h]; exact List.mem_cons_of_mem m0 hm
  obtain ⟨_, htry⟩ := scanTokensAux_mem line.data _ _ m hmem
  have hidx : m0.index + 1 ≤ m.index :=
    scanTokensAux_tail line.data _ _ m0 rest h m hm
  exact tryTokenAt_nonzero_no_meta m.index _ m.length m.caps (by omega) htry

end Cooklang

namespace Cooklang

theorem line_abandoned_empty (cfg : Config) (n : Nat) (line : String)
    (I : List Ingredient) (C : List Cookware) (k v : String)
    (h : matchLoop cfg n line (lineMatches line) 0 [] [] [] = .ok (.abandoned I C k v)) :
    I = [] ∧ C = [] := by
  cases hms : lineMatches line with
  | nil =>
    rw [hms] at h
    simp only [matchLoop, Except.ok.injEq] at h
    exact MatchLoopResult.noConfusion h
  | cons m0 rest =>
    rw [hms] at h
    exact matchLoop_abandoned_spec cfg n line m0 rest
      (lineMatches_tail_no_meta line m0 rest hms) 0 [] [] [] I C k v h

theorem linesLoop_flat (cfg : Config) :
    ∀ (ls : List String) (n : Nat) ings cooks md steps I C M S N,
      linesLoop cfg ls n ings cooks md steps = .ok (I, C, M, S, N) →
      ings = (steps.map stepIngredients).flatten →
      cooks = (steps.map stepCookwares).flatten →
      I = (S.map stepIngredients).flatten ∧ C = (S.map stepCookwares).flatten := by
  intro ls
  induction ls with
  | nil =>
    intro n ings cooks md steps I C M S N h hi hc
    simp only [linesLoop, Except.ok.injEq, Prod.mk.injEq] at h
    obtain ⟨h1, h2, _, h4, _⟩ := h
    subst h1; subst h2; subst h4
    exact ⟨hi, hc⟩
  | cons line rest ih =>
    intro n ings cooks md steps I C M S N h hi hc
    simp only [linesLoop] at h
    cases hml : matchLoop cfg n line (lineMatches line) 0 [] [] [] with
    | error e => rw [hml] at h; exact Except.noConfusion h
    | ok res =>
      cases res with
      | abandoned ings' cooks' k v =>
        simp only [hml] at h
        obtain ⟨hie, hce⟩ := line_abandoned_empty cfg n line ings' cooks' k v hml
        subst hie; subst hce
        simp only [List.append_nil] at h
        exact ih n ings cooks (mdInsert k v md) steps I C M S N h hi hc
      | done ings' cooks' T P =>
        simp only [hml] at h
        obtain ⟨hflat, hflatC, _, _⟩ :=
          matchLoop_done_spec cfg n line (lineMatches line) 0 [] [] [] ings' cooks' T P hml
        have hTI : stepIngredients T = ings' := hflat rfl
        have hTC : stepCookwares T = cooks' := hflatC rfl
        by_cases hemp :
            (T ++ (if P < line.data.length then [StepItem.text (jsSubstringFrom line P)] else [])).isEmpty
        · rw [if_pos hemp] at h
          have hT : T = [] := by
            rcases List.append_eq_nil.mp (List.isEmpty_iff.mp hemp) with ⟨h1, _⟩
            exact h1
          have hie : ings' = [] := by rw [← hTI, hT]; rfl
          have hce : cooks' = [] := by rw [← hTC, hT]; rfl
          subst hie; subst hce
          simp only [List.append_nil] at h
          exact ih n ings cooks md steps I C M S N h hi hc
        · rw [if_neg hemp] at h
          refine ih (n + 1) (ings ++ ings') (cooks ++ cooks') md _ I C M S N h ?_ ?_
          · rw [hi, ← hTI]
            simp [stepIngredients_append, stepIngredients_ite, List.flatten_append,
              apply_ite stepIngredients, stepIngredients_text, stepIngredients_nil,
              ite_self]
          · rw [hc, ← hTC]
            simp [stepCookwares_append, stepCookwares_ite, List.flatten_append,
              apply_ite stepCookwares, stepCookwares_text, stepCookwares_nil,
              ite_self]

end Cooklang

namespace Cooklang

theorem linesLoop_steps (cfg : Config) :
    ∀ (ls : List String) (n : Nat) ings cooks md steps I C M S N,
      linesLoop cfg ls n ings cooks md steps = .ok (I, C, M, S, N) →
      n = steps.length →
      (∀ st ∈ steps, st ≠ []) →
      (cfg.includeStepNumber = true → ∀ (j : Nat) st, steps[j]? = some st →
        (∀ i ∈ stepIngredients st, i.step = some j) ∧
        (∀ c ∈ stepCookwares st, c.step = some j)) →
      (∀ st ∈ S, st ≠ []) ∧
      (cfg.includeStepNumber = true → ∀ (j : Nat) st, S[j]? = some st →
        (∀ i ∈ stepIngredients st, i.step = some j) ∧
        (∀ c ∈ stepCookwares st, c.step = some j)) := by
  intro ls
  induction ls with
  | nil =>
    intro n ings cooks md steps I C M S N h hn hne hfield
    simp only [linesLoop, Except.ok.injEq, Prod.mk.injEq] at h
    obtain ⟨_, _, _, h4, _⟩ := h
    subst h4
    exact ⟨hne, hfield⟩
  | cons line rest ih =>
    intro n ings cooks md steps I C M S N h hn hne hfield
    simp only [linesLoop] at h
    cases hml : matchLoop cfg n line (lineMatches line) 0 [] [] [] with
    | error e => rw [hml] at h; exact Except.noConfusion h
    | ok res =>
      cases res with
      | abandoned ings' cooks' k v =>
        simp only [hml] at h
        exact ih n (ings ++ ings') (cooks ++ cooks') (mdInsert k v md) steps
          I C M S N h hn hne hfield
      | done ings' cooks' T P =>
        simp only [hml] at h
        obtain ⟨_, _, hstepI, hstepC⟩ :=
          matchLoop_done_spec cfg n line (lineMatches line) 0 [] [] [] ings' cooks' T P hml
        set items' :=
          T ++ (if P < line.data.length then [StepItem.text (jsSubstringFrom line P)] else [])
          with hitems'
        by_cases hemp : items'.isEmpty
        · rw [if_pos hemp] at h
          exact ih n (ings ++ ings') (cooks ++ cooks') md steps I C M S N h hn hne hfield
        · rw [if_neg hemp] at h
          have hfieldI : ∀ i ∈ stepIngredients items',
              i.step = if cfg.includeStepNumber then some n else none := by
            intro i hi
            rw [hitems', stepIngredients_append] at hi
            rcases List.mem_append.mp hi with hi | hi
            · exact hstepI (by intro x hx; exact absurd hx (List.not_mem_nil x)) i hi
            · revert hi
              rw [stepIngredients_ite]
              split <;> intro hi <;> exact absurd hi (List.not_mem_nil i)
          have hfieldC : ∀ c ∈ stepCookwares items',
              c.step = if cfg.includeStepNumber then some n else none := by
            intro c hc
            rw [hitems', stepCookwares_append] at hc
            rcases List.mem_append.mp hc with hc | hc
            · exact hstepC (by intro x hx; exact absurd hx (List.not_mem_nil x)) c hc
            · revert hc
              rw [stepCookwares_ite]
              split <;> intro hc <;> exact absurd hc (List.not_mem_nil c)
          refine ih (n + 1) (ings ++ ings') (cooks ++ cooks') md (steps ++ [items'])
            I C M S N h ?_ ?_ ?_
          · simp [hn]
          · intro st hst
            rcases List.mem_append.mp hst with hst | hst
            · exact hne st hst
            · simp only [List.mem_singleton] at hst
              subst hst
              intro hnil
              rw [hnil] at hemp
              exact hemp rfl
          · intro hflag j st hj
            by_cases hjlt : j < steps.length
            · rw [List.getElem?_append_left hjlt] at hj
              exact hfield hflag j st hj
            · rw [List.getElem?_append_right (Nat.le_of_not_lt hjlt)] at hj
              by_cases hjeq : j = steps.length
              · subst hjeq
                simp only [Nat.sub_self, List.getElem?_cons_zero, Option.some.injEq] at hj
                subst hj
                constructor
                · intro i hi
                  have := hfieldI i hi
                  rw [hflag] at this
                  simpa [hn] using this
                · intro c hc
                  have := hfieldC c hc
                  rw [hflag] at this
                  simpa [hn] using this
              · have : 1 ≤ j - steps.length := by omega
                rw [List.getElem?_cons] at hj
                simp only [if_neg (by omega : ¬ j - steps.length = 0)] at hj
                exact absurd hj (by simp)

end Cooklang

namespace Cooklang

theorem slLoop_total :
    ∀ (ms : List TokenMatch) (sl : ShoppingList) (src : String),
      ∃ out, slLoop ms sl src = .ok out := by
  intro ms
  induction ms with
  | nil => intro sl src; exact ⟨_, rfl⟩
  | cons m ms ih =>
    intro sl src
    simp only [slLoop, cng_shoppingList]
    split
    · exact ih _ _
    · exact ih _ _

theorem linesLoop_total (cfg : Config) :
    ∀ (ls : List String) (n : Nat) ings cooks md steps,
      ∃ out, linesLoop cfg ls n ings cooks md steps = .ok out := by
  intro ls
  induction ls with
  | nil => intro n ings cooks md steps; exact ⟨_, rfl⟩
  | cons line rest ih =>
    intro n ings cooks md steps
    obtain ⟨r, hr⟩ := matchLoop_total cfg n line (lineMatches line) 0 [] [] []
    cases r with
    | abandoned ings' cooks' k v =>
      obtain ⟨out, hout⟩ := ih n (ings ++ ings') (cooks ++ cooks') (mdInsert k v md) steps
      exact ⟨out, by simp only [linesLoop, hr]; exact hout⟩
    | done ings' cooks' T P =>
      by_cases hemp :
          (T ++ (if P < line.data.length then [StepItem.text (jsSubstringFrom line P)] else [])).isEmpty
      · obtain ⟨out, hout⟩ := ih n (ings ++ ings') (cooks ++ cooks') md steps
        exact ⟨out, by simp only [linesLoop, hr, if_pos hemp]; exact hout⟩
      · obtain ⟨out, hout⟩ := ih (n + 1) (ings ++ ings') (cooks ++ cooks') md
          (steps ++ [T ++ (if P < line.data.length then [StepItem.text (jsSubstringFrom line P)] else [])])
        exact ⟨out, by simp only [linesLoop, hr, if_neg hemp]; exact hout⟩

theorem parse_total (cfg : Config) (source : String) :
    ∃ r, parse cfg source = .ok r := by
  obtain ⟨⟨sl, src'⟩, hsl⟩ := slLoop_total
    (scanRE shoppingListRE (stripBlockComments (stripLineComments source))) []
    (stripBlockComments (stripLineComments source))
  obtain ⟨⟨I, C, M, S, N⟩, hll⟩ := linesLoop_total cfg
    ((splitLines src').filter (fun l => jsTrim l != "")) 0 [] [] [] []
  exact ⟨{ ingredients := I, cookwares := C, metadata := M, steps := S,
           shoppingList := sl },
    by simp only [parse, hsl, hll]⟩

end Cooklang

namespace Cooklang

/-! ## Claim theorems -/

/-- C1: the spec says a recognized shopping-list block is excised from the
working text before step tokenization, the block text never re-entering step
parsing while the surrounding text is preserved and tokenized.  The code
never removes (nor records) the block: `createNamedGroups` reads capture
indices 14/15 from the standalone shopping-list match (whose captures are
at 1/2), so `groups.name` is always undefined and every match is skipped;
the block text stays in the body and is tokenized as ordinary steps.  Here
the `[veg]`/`onion` block lines become Text steps. -/
theorem claim1_shopping_block_not_excised :
    parse defaultConfig "a\n\n[veg]\nonion\n\nCook @egg" =
      Except.ok
        ⟨[⟨"egg", Amount.str "some", "", none, none⟩], [], [],
         [[StepItem.text "a"], [StepItem.text "[veg]"], [StepItem.text "onion"],
          [StepItem.text "Cook ",
           StepItem.ingredient ⟨"egg", Amount.str "some", "", none, none⟩]],
         []⟩ := by
  with_unfolding_all rfl

/-- C4: the spec's shopping-list example.  The block should yield
`shoppingList["produce"] = [{onion,onions},{garlic,""}]` and no Step; the
code leaves `shoppingList` empty and tokenizes the block lines as Text
steps (the `parseShoppingListCategory` helper itself would produce exactly
the claimed items, but it is never reached). -/
theorem claim4_shopping_list_never_populated :
    parse defaultConfig "\n[produce]\nonion|onions\ngarlic\n\n" =
      Except.ok
        ⟨[], [], [],
         [[StepItem.text "[produce]"], [StepItem.text "onion|onions"],
          [StepItem.text "garlic"]],
         []⟩ ∧
    parseShoppingListCategory "onion|onions\ngarlic" =
      [⟨"onion", "onions"⟩, ⟨"garlic", ""⟩] := by
  constructor <;> with_unfolding_all rfl

/-- C6: the worked example of the spec: one step with Text/Ingredient/Text/
Cookware/Text/Timer/Text items, the onion the only flat-list ingredient and
the pan the only flat-list cookware. -/
theorem claim6_example_line :
    parse defaultConfig "Fry the @onion{2%cups} in a #pan for ~{5%minutes}." =
      Except.ok
        ⟨[⟨"onion", Amount.num 2, "cups", none, none⟩],
         [⟨"pan", Amount.num 1, none⟩],
         [],
         [[StepItem.text "Fry the ",
           StepItem.ingredient ⟨"onion", Amount.num 2, "cups", none, none⟩,
           StepItem.text " in a ",
           StepItem.cookware ⟨"pan", Amount.num 1, none⟩,
           StepItem.text " for ",
           StepItem.timer ⟨"", Amount.num 5, "minutes"⟩,
           StepItem.text "."]],
         []⟩ := by
  with_unfolding_all rfl

/-- C10: the timer pattern's lazy name `(.*?)` extends to the first brace
on the line, so `~foo @x{1}` is one Timer named `"foo @x"` with quantity 1
and no Ingredient is produced for `@x{1}`. -/
theorem claim10_timer_name_swallows_annotation :
    parse defaultConfig "~foo @x{1}" =
      Except.ok ⟨[], [], [], [[StepItem.timer ⟨"foo @x", Amount.num 1, ""⟩]], []⟩ := by
  with_unfolding_all rfl

/-- C3 counterexample: the claim says `~eggs{}` yields a Timer with
quantity 0, but the captured empty quantity is falsy, so the timer branch
does not fire: the line produces no items at all (the match is consumed and
the empty step is discarded). -/
theorem claim3_counterexample_empty_quantity :
    parse defaultConfig "~eggs{}" = Except.ok ⟨[], [], [], [], []⟩ := by
  with_unfolding_all rfl

/-- C8: `parse` is total — it returns a `ParseResult` for every input and
configuration.  The only failure path of the implementation is the
unknown-type contract check in `createNamedGroups`, and the parser only
passes the recognized identifiers, so that branch is unreachable during
`parse`. -/
theorem claim8_parse_total :
    (∀ (cfg : Config) (s : String), ∃ r, parse cfg s = Except.ok r) ∧
    (∀ (caps : Caps) (t : String), groupMappings t = none →
      createNamedGroups caps t = Except.error ("Unknown regex type: " ++ t)) := by
  constructor
  · exact parse_total
  · intro caps t h
    simp only [createNamedGroups, h]

/-- Witness for C8 at a concrete unknown identifier. -/
theorem claim8_witness :
    createNamedGroups [] "bogus" = Except.error ("Unknown regex type: " ++ "bogus") :=
  claim8_parse_total.2 [] "bogus" (by with_unfolding_all rfl)

end Cooklang

namespace Cooklang

/-- C5: for every input and configuration, the flat `ingredients` and
`cookwares` lists are exactly the concatenation, in step order and
within-step position order, of the Ingredient/Cookware items embedded in
`steps` — no deduplication, each occurrence appears in both places. -/
theorem claim5_flat_lists_are_step_concatenation :
    ∀ (cfg : Config) (src : String) (r : ParseResult), parse cfg src = Except.ok r →
      r.ingredients = (r.steps.map stepIngredients).flatten ∧
      r.cookwares = (r.steps.map stepCookwares).flatten := by
  intro cfg src r h
  simp only [parse] at h
  cases hsl : slLoop (scanRE shoppingListRE (stripBlockComments (stripLineComments src)))
      [] (stripBlockComments (stripLineComments src)) with
  | error e => rw [hsl] at h; exact Except.noConfusion h
  | ok p =>
    obtain ⟨sl, src'⟩ := p
    simp only [hsl] at h
    cases hll : linesLoop cfg ((splitLines src').filter (fun l => jsTrim l != ""))
        0 [] [] [] [] with
    | error e => rw [hll] at h; exact Except.noConfusion h
    | ok out =>
      obtain ⟨I, C, M, S, N⟩ := out
      simp only [hll, Except.ok.injEq] at h
      subst h
      exact linesLoop_flat cfg _ 0 [] [] [] [] I C M S N hll rfl rfl

/-- Witness for C5 on a concrete recipe. -/
theorem claim5_witness :
    ∃ r, parse defaultConfig "Add @salt and @salt to #pot" = Except.ok r ∧
      r.ingredients = (r.steps.map stepIngredients).flatten ∧
      r.cookwares = (r.steps.map stepCookwares).flatten :=
  ⟨_, by with_unfolding_all rfl,
    claim5_flat_lists_are_step_concatenation defaultConfig "Add @salt and @salt to #pot" _
      (by with_unfolding_all rfl)⟩

/-- C9: every appended step is non-empty, and with `includeStepNumber` on,
every Ingredient/Cookware item of `steps[j]` carries `step = j`; the
counter advances only when a non-empty step is appended, which is what
makes the recorded index equal the position of the containing step. -/
theorem claim9_step_numbering :
    ∀ (cfg : Config) (src : String) (r : ParseResult), parse cfg src = Except.ok r →
      (∀ st ∈ r.steps, st ≠ []) ∧
      (cfg.includeStepNumber = true → ∀ (j : Nat) (st : Step), r.steps[j]? = some st →
        (∀ i ∈ stepIngredients st, i.step = some j) ∧
        (∀ c ∈ stepCookwares st, c.step = some j)) := by
  intro cfg src r h
  simp only [parse] at h
  cases hsl : slLoop (scanRE shoppingListRE (stripBlockComments (stripLineComments src)))
      [] (stripBlockComments (stripLineComments src)) with
  | error e => rw [hsl] at h; exact Except.noConfusion h
  | ok p =>
    obtain ⟨sl, src'⟩ := p
    simp only [hsl] at h
    cases hll : linesLoop cfg ((splitLines src').filter (fun l => jsTrim l != ""))
        0 [] [] [] [] with
    | error e => rw [hll] at h; exact Except.noConfusion h
    | ok out =>
      obtain ⟨I, C, M, S, N⟩ := out
      simp only [hll, Except.ok.injEq] at h
      subst h
      refine linesLoop_steps cfg _ 0 [] [] [] [] I C M S N hll rfl ?_ ?_
      · intro st hst; exact absurd hst (List.not_mem_nil st)
      · intro _ j st hj
        rw [List.getElem?_nil] at hj
        exact absurd hj (by simp)

/-- Witness for C9 on a concrete two-step recipe with numbering enabled. -/
theorem claim9_witness :
    ∃ r, parse { includeStepNumber := true } "Add @salt\nStir with #spoon" =
        Except.ok r ∧
      (∀ st ∈ r.steps, st ≠ []) ∧
      (∀ (j : Nat) (st : Step), r.steps[j]? = some st →
        (∀ i ∈ stepIngredients st, i.step = some j) ∧
        (∀ c ∈ stepCookwares st, c.step = some j)) :=
  ⟨_, by with_unfolding_all rfl,
    (claim9_step_numbering { includeStepNumber := true } "Add @salt\nStir with #spoon" _
      (by with_unfolding_all rfl)).1,
    (claim9_step_numbering { includeStepNumber := true } "Add @salt\nStir with #spoon" _
      (by with_unfolding_all rfl)).2 rfl⟩

end Cooklang

namespace Cooklang

/-- C7: a metadata match records the trimmed key and value and abandons the
rest of the line's scan — the per-line loop returns `abandoned` with the
flat accumulators untouched, so the line yields no Step; concretely,
`>> servings: 4` produces only the metadata entry, and a duplicated key
keeps the last value without error. -/
theorem claim7_metadata_line :
    (∀ (cfg : Config) (n : Nat) (line : String) (ms : List TokenMatch) (pos : Nat)
       ings cooks items (m : TokenMatch) (k v : String),
       capLookup 1 m.caps = some k → k ≠ "" →
       capLookup 2 m.caps = some v → v ≠ "" →
       matchLoop cfg n line (m :: ms) pos ings cooks items =
         .ok (.abandoned ings cooks (jsTrim k) (jsTrim v))) ∧
    parse defaultConfig ">> servings: 4" =
      Except.ok ⟨[], [], [("servings", "4")], [], []⟩ ∧
    parse defaultConfig ">> a: 1\n>> a: 2" =
      Except.ok ⟨[], [], [("a", "2")], [], []⟩ := by
  refine ⟨?_, by with_unfolding_all rfl, by with_unfolding_all rfl⟩
  intro cfg n line ms pos ings cooks items m k v hk hkne hv hvne
  simp only [matchLoop, processMatch, cng_metadata, ngTruthy_eq, ngStr,
    ng_meta_key, ng_meta_value, hk, hv, jsStrTruthy, Option.getD_some]
  have hkb : (k != "") = true := by simpa using hkne
  have hvb : (v != "") = true := by simpa using hvne
  simp only [hkb, hvb, Bool.and_self, if_true]

end Cooklang

namespace Cooklang

/-- Witness for C7 at a concrete metadata match. -/
theorem claim7_witness :
    matchLoop defaultConfig 0 ">> a: b" [⟨0, 7, [(1, "a"), (2, "b")]⟩] 0 [] [] [] =
      .ok (.abandoned [] [] (jsTrim "a") (jsTrim "b")) :=
  claim7_metadata_line.1 defaultConfig 0 ">> a: b" [] 0 [] [] []
    ⟨0, 7, [(1, "a"), (2, "b")]⟩ "a" "b" rfl (by decide) rfl (by decide)

/-- C3 (amended): for a timer-form match (no other group captured) a Timer
item is pushed exactly when the captured braced quantity is non-empty; its
quantity is the `parseQuantity` value with fallback `0` — not the caller
default — when `parseQuantity` is unresolved (whitespace-only quantity), its
name defaults to `""` and its units fall back to the parser's
`defaultUnits` (the empty string); the flat ingredient/cookware
accumulators are returned unchanged, so a Timer never reaches a flat list.
An empty captured quantity produces no Timer at all. -/
theorem claim3_timer_item :
    ∀ (cfg : Config) (n : Nat) (line : String) (pos : Nat) (m : TokenMatch)
      ings cooks items (q : String),
      capLookup 1 m.caps = none →
      capLookup 7 m.caps = none →
      capLookup 3 m.caps = none →
      capLookup 10 m.caps = none →
      capLookup 8 m.caps = none →
      capLookup 12 m.caps = some q →
      processMatch cfg n line pos m ings cooks items =
        .ok (.cont ings cooks
          ((items ++ (if pos < m.index then [StepItem.text (jsSubstring line pos m.index)] else [])) ++
            (if q ≠ "" then
              [StepItem.timer ⟨(capLookup 11 m.caps).getD "",
                (parseQuantity (some q)).getD (Amount.num 0),
                (parseUnits (capLookup 13 m.caps)).getD cfg.defaultUnits⟩]
             else []))
          (m.index + m.length)) := by
  intro cfg n line pos m ings cooks items q h1 h7 h3 h10 h8 h12
  simp only [processMatch, cng_metadata, cng_singleWordIngredient,
    cng_multiwordIngredient, cng_singleWordCookware, cng_multiwordCookware, cng_timer,
    ngTruthy_eq, ngStr, ng_meta_key, ng_sIng_name, ng_mIng_name, ng_sCook_name,
    ng_mCook_name, ng_timer_name, ng_timer_quantity, ng_timer_units,
    h1, h7, h3, h10, h8, h12, jsStrTruthy, Bool.false_and, Bool.false_eq_true,
    if_false, List.append_nil, Option.getD_some]
  congr 2
  · by_cases hq : q = ""
    · subst hq
      simp
    · have hqb : (q != "") = true := by simpa using hq
      simp [hqb, hq]

end Cooklang

namespace Cooklang

/-- Witness for C3 at a concrete timer-form match with a whitespace-only
quantity (`~eggs{ }`): the Timer quantity falls back to 0. -/
theorem claim3_witness :
    processMatch defaultConfig 0 "~eggs{ }" 0 ⟨0, 8, [(11, "eggs"), (12, " ")]⟩ [] [] [] =
      .ok (.cont [] []
        (([] ++ (if (0 : Nat) < (0 : Nat) then [StepItem.text (jsSubstring "~eggs{ }" 0 0)] else [])) ++
          (if (" " : String) ≠ "" then
            [StepItem.timer ⟨(capLookup 11 [(11, "eggs"), (12, " ")]).getD "",
              (parseQuantity (some " ")).getD (Amount.num 0),
              (parseUnits (capLookup 13 [(11, "eggs"), (12, " ")])).getD
                defaultConfig.defaultUnits⟩]
           else []))
        (0 + 8)) :=
  claim3_timer_item defaultConfig 0 "~eggs{ }" 0 ⟨0, 8, [(11, "eggs"), (12, " ")]⟩
    [] [] [] " " rfl rfl rfl rfl rfl rfl

end Cooklang


namespace Cooklang

/-- C2 (amended) — `parseQuantity` behavior for every input: trimmed-empty
input is unresolved; the trimmed string splits on `/` into left/right; a
non-empty right part that is not a clean number returns the trimmed string
verbatim; a clean-number left with the right part absent, empty or
numerically zero (e.g. `"1/0"`) returns the numeric left value; two clean
numbers with nonzero right and no leading zero on either side return the
quotient; a leading zero on either side (with a clean nonzero right part)
forces the opaque-string fallback; otherwise the trimmed string is
returned.  The concrete anchors of the spec are included, plus `"1/0"`. -/
theorem claim2_parseQuantity_spec :
    parseQuantity none = none ∧
    (∀ s : String, jsTrim s = "" → parseQuantity (some s) = none) ∧
    (∀ s : String, jsTrim s ≠ "" →
      jsStrTruthy ((jsTrim s).splitOn "/")[1]? = true →
      jsNumberO ((jsTrim s).splitOn "/")[1]? = none →
      parseQuantity (some s) = some (Amount.str (jsTrim s))) ∧
    (∀ (s : String) (l : ℚ), jsTrim s ≠ "" →
      jsNumber (((jsTrim s).splitOn "/").headD "") = some l →
      ¬(jsStrTruthy ((jsTrim s).splitOn "/")[1]? = true ∧
        jsNumberO ((jsTrim s).splitOn "/")[1]? = none) →
      (jsNumberO ((jsTrim s).splitOn "/")[1]? = none ∨
       jsNumberO ((jsTrim s).splitOn "/")[1]? = some 0) →
      parseQuantity (some s) = some (Amount.num l)) ∧
    (∀ (s : String) (l r : ℚ) (rs : String), jsTrim s ≠ "" →
      jsNumber (((jsTrim s).splitOn "/").headD "") = some l →
      jsNumberO ((jsTrim s).splitOn "/")[1]? = some r → r ≠ 0 →
      ((jsTrim s).splitOn "/")[1]? = some rs →
      ((((jsTrim s).splitOn "/").headD "").startsWith "0" || rs.startsWith "0") = false →
      parseQuantity (some s) = some (Amount.num (l / r))) ∧
    (∀ (s : String) (l r : ℚ) (rs : String), jsTrim s ≠ "" →
      jsNumber (((jsTrim s).splitOn "/").headD "") = some l →
      jsNumberO ((jsTrim s).splitOn "/")[1]? = some r → r ≠ 0 →
      ((jsTrim s).splitOn "/")[1]? = some rs →
      ((((jsTrim s).splitOn "/").headD "").startsWith "0" || rs.startsWith "0") = true →
      parseQuantity (some s) = some (Amount.str (jsTrim s))) ∧
    (∀ s : String, jsTrim s ≠ "" →
      jsNumber (((jsTrim s).splitOn "/").headD "") = none →
      ¬(jsStrTruthy ((jsTrim s).splitOn "/")[1]? = true ∧
        jsNumberO ((jsTrim s).splitOn "/")[1]? = none) →
      parseQuantity (some s) = some (Amount.str (jsTrim s))) ∧
    parseQuantity (some "1/2") = some (Amount.num (1 / 2)) ∧
    parseQuantity (some "01/2") = some (Amount.str "01/2") ∧
    parseQuantity (some "") = none ∧
    parseQuantity (some "abc") = some (Amount.str "abc") ∧
    parseQuantity (some "1/0") = some (Amount.num 1) := by
  refine ⟨rfl, ?_, ?_, ?_, ?_, ?_, ?_,
    by with_unfolding_all rfl, by with_unfolding_all rfl, by with_unfolding_all rfl,
    by with_unfolding_all rfl, by with_unfolding_all rfl⟩
  · intro s hs
    simp only [parseQuantity, hs, if_true]
  · intro s hs htr hnan
    simp only [parseQuantity, if_neg hs]
    set q := jsTrim s
    set parts := q.splitOn "/"
    set rightO := parts[1]?
    set nr := jsNumberO rightO
    rw [htr, hnan]
    simp
  · intro s l hs hl hnot hfalsy
    simp only [parseQuantity, if_neg hs]
    set q := jsTrim s
    set parts := q.splitOn "/"
    set left := parts.headD ""
    set rightO := parts[1]?
    set nl := jsNumber left
    set nr := jsNumberO rightO
    have hc1 : (jsStrTruthy rightO && nr.isNone) = false := by
      by_cases hb : jsStrTruthy rightO = true
      · cases hn : nr with
        | none => exact absurd ⟨hb, hn⟩ hnot
        | some _ => simp [hn]
      · simp [Bool.eq_false_iff.mpr hb]
    have hc2 : (nl.isSome && jsNumFalsy nr) = true := by
      rcases hfalsy with hn | hn <;> simp [hl, hn, jsNumFalsy]
    rw [hc1, hc2]
    simp [hl]
  · intro s l r rs hs hl hr hrne hrs hz
    simp only [parseQuantity, if_neg hs]
    set q := jsTrim s
    set parts := q.splitOn "/"
    set left := parts.headD ""
    set rightO := parts[1]?
    set nl := jsNumber left
    set nr := jsNumberO rightO
    have hc1 : (jsStrTruthy rightO && nr.isNone) = false := by simp [hr]
    have hc2 : (nl.isSome && jsNumFalsy nr) = false := by
      simp [hr, jsNumFalsy, hrne]
    have hc3 : (nl.isSome && nr.isSome &&
        !(left.startsWith "0" || (rightO.getD "").startsWith "0")) = true := by
      rw [hrs]
      simp only [Option.getD_some]
      simp [hl, hr, hz]
    rw [hc1, hc2, hc3]
    simp [hl, hr]
  · intro s l r rs hs hl hr hrne hrs hz
    simp only [parseQuantity, if_neg hs]
    set q := jsTrim s
    set parts := q.splitOn "/"
    set left := parts.headD ""
    set rightO := parts[1]?
    set nl := jsNumber left
    set nr := jsNumberO rightO
    have hc1 : (jsStrTruthy rightO && nr.isNone) = false := by simp [hr]
    have hc2 : (nl.isSome && jsNumFalsy nr) = false := by
      simp [hr, jsNumFalsy, hrne]
    have hc3 : (nl.isSome && nr.isSome &&
        !(left.startsWith "0" || (rightO.getD "").startsWith "0")) = false := by
      rw [hrs]
      simp only [Option.getD_some]
      simp [hz]
    rw [hc1, hc2, hc3]
    simp
  · intro s hs hl hnot
    simp only [parseQuantity, if_neg hs]
    set q := jsTrim s
    set parts := q.splitOn "/"
    set left := parts.headD ""
    set rightO := parts[1]?
    set nl := jsNumber left
    set nr := jsNumberO rightO
    have hc1 : (jsStrTruthy rightO && nr.isNone) = false := by
      by_cases hb : jsStrTruthy rightO = true
      · cases hn : nr with
        | none => exact absurd ⟨hb, hn⟩ hnot
        | some _ => simp [hn]
      · simp [Bool.eq_false_iff.mpr hb]
    have hc2 : (nl.isSome && jsNumFalsy nr) = false := by simp [hl]
    have hc3 : (nl.isSome && nr.isSome &&
        !(left.startsWith "0" || (rightO.getD "").startsWith "0")) = false := by
      simp [hl]
    rw [hc1, hc2, hc3]
    simp

end Cooklang

namespace Cooklang

/-- Witness for C2: the no-right-part numeric branch at `" 7 "` and the
empty branch at `""`, via the theorem itself. -/
theorem claim2_witness :
    parseQuantity (some " 7 ") = some (Amount.num 7) ∧ parseQuantity (some "") = none :=
  ⟨claim2_parseQuantity_spec.2.2.2.1 " 7 " 7 (by with_unfolding_all decide)
      (by with_unfolding_all rfl)
      (fun hc => absurd hc.1 (by with_unfolding_all decide))
      (Or.inl (by with_unfolding_all rfl)),
    claim2_parseQuantity_spec.2.1 "" rfl⟩

/-- C2 counterexample: the frozen claim says a right side such as `"0"`
forces the opaque-string fallback (`"1/0"` would come back verbatim); the
code treats a numerically-zero right side like an absent one and returns
the numeric left value 1. -/
theorem claim2_counterexample_one_over_zero :
    parseQuantity (some "1/0") = some (Amount.num 1) ∧
    parseQuantity (some "1/0") ≠ some (Amount.str "1/0") := by
  constructor
  · with_unfolding_all rfl
  · intro h
    rw [show parseQuantity (some "1/0") = some (Amount.num 1) from
      by with_unfolding_all rfl] at h
    simp at h

end Cooklang
